import Mathlib

/-!
Verification development for the EtherVault credential-vault core.

The TypeScript services (`AuthServiceImpl`, `VaultService`, `SecurityService`,
`CryptoService`) are shallowly embedded: the authenticated cipher is modelled
symbolically (a ciphertext remembers the plaintext, the key and the nonce it
was produced with, and decryption succeeds exactly when key and nonce match),
persistent storage is a record holding the `metadata` fields and the list of
`vault` records (IndexedDB `getAll` enumerates records in ascending key
order), and the session (master key, authenticated flag) plus the in-memory
decrypted cache are explicit state fields.  Randomness (fresh salts and
nonces) is modelled by a counter `ctr` in the state that every generation
step reads and bumps.
-/

namespace EV

/-- Abstract random salt, as produced by `CryptoService.generateSalt`. -/
abbrev Salt := Nat

/-- A symmetric key.  `CryptoService.deriveKey` is deterministic and
collision-free for distinct inputs, so a derived key is modelled as the pair
of its inputs. -/
structure Key where
  password : String
  saltId : Salt
deriving DecidableEq, Repr

/-- `CryptoService.deriveKey(password, salt)`. -/
def deriveKey (password : String) (salt : Salt) : Key := ⟨password, salt⟩

/-- Password strength bands of `SecurityService`. -/
inductive Strength
  | weak
  | medium
  | strong
  | secure
deriving DecidableEq, Repr

/-- The sensitive-field projection that `VaultService` encrypts into a
record's payload (`{title, username, password, website, url, notes,
category, tags}`). -/
structure SensitiveFields where
  title : String
  username : String
  password : String
  website : String
  url : String
  notes : String
  category : String
  tags : List String
deriving DecidableEq, Repr

/-- A decrypted credential record held in `VaultService`'s in-memory cache. -/
structure PasswordEntry where
  id : Nat
  title : String
  username : String
  password : String
  website : String
  url : String
  notes : String
  category : String
  tags : List String
  favorite : Bool
  icon : Option String
  createdAt : Int
  updatedAt : Int
deriving DecidableEq, Repr

/-- Plaintexts that the cipher is applied to in the sources: the `VALID`
sentinel string of the Verifier, the JSON object of a record's sensitive
fields, and the JSON array of a whole decrypted vault (export/import). -/
inductive Plain
  | str (s : String)
  | fields (f : SensitiveFields)
  | entryList (l : List PasswordEntry)
deriving DecidableEq, Repr

/-- A symbolic authenticated ciphertext: it remembers the plaintext, the key
and the nonce it was created under. -/
structure Ciphertext where
  plain : Plain
  key : Key
  nonceTag : Nat
deriving DecidableEq, Repr

/-- `CryptoService.encrypt(message, key)` with the fresh random nonce made
explicit; returns `{ciphertext, nonce}`. -/
def encrypt (m : Plain) (k : Key) (n : Nat) : Ciphertext × Nat := (⟨m, k, n⟩, n)

/-- `CryptoService.decrypt(ciphertext, nonce, key)`: succeeds exactly when
key and nonce match the ones used at encryption (authenticated cipher);
`none` models the thrown decryption error. -/
def decrypt (ct : Ciphertext) (n : Nat) (k : Key) : Option Plain :=
  if ct.key = k ∧ ct.nonceTag = n then some ct.plain else none

/-- `JSON.parse` of a decrypted payload when a field object is expected;
parsing anything else (e.g. the sentinel string) throws. -/
def parseFields : Plain → Option SensitiveFields
  | .fields f => some f
  | _ => none

/-- `JSON.parse` of a decrypted whole-vault blob when an entry array is
expected. -/
def parseEntries : Plain → Option (List PasswordEntry)
  | .entryList l => some l
  | _ => none

/-- The persisted `metadata["auth_verifier"]` value `{payload, nonce}`. -/
structure VerifierRec where
  payload : Ciphertext
  nonce : Nat
deriving DecidableEq, Repr

/-- A persisted `vault[id]` record.  `payload`/`nonce` are optional because
incoming cloud items may lack them (the sources guard with
`!item.payload || !item.nonce`). -/
structure StorageRecord where
  id : Nat
  payload : Option Ciphertext
  nonce : Option Nat
  category : String
  createdAt : Int
  updatedAt : Int
  favorite : Bool
  icon : Option String
deriving DecidableEq, Repr

/-- The `metadata` namespace of the persistent store. -/
structure Metadata where
  salt : Option Salt
  setupComplete : Bool
  verifier : Option VerifierRec
deriving DecidableEq, Repr

/-- Whole program state: persistent store (metadata + vault records),
`VaultService`'s decrypted cache, `AuthServiceImpl`'s session fields, and
the entropy counter supplying fresh salts/nonces. -/
structure St where
  meta : Metadata
  vault : List StorageRecord
  cache : List PasswordEntry
  masterKey : Option Key
  isAuthenticated : Bool
  ctr : Nat
deriving DecidableEq, Repr

/-- IndexedDB `getAll('vault')` enumerates records in ascending key order. -/
def getAllVault (st : St) : List StorageRecord :=
  st.vault.insertionSort (fun a b => a.id ≤ b.id)

/-- IndexedDB `put` on the `vault` store: replace the record with the same
key, or insert. -/
def upsertVault : List StorageRecord → StorageRecord → List StorageRecord
  | [], r => [r]
  | x :: xs, r => if x.id = r.id then r :: xs else x :: upsertVault xs r

/-- The JS spread `{ ...storageRecord, ...decryptedFields }` used to build a
cache entry: unencrypted projection fields come from the record, sensitive
fields from the decrypted payload. -/
def mkEntry (r : StorageRecord) (f : SensitiveFields) : PasswordEntry :=
  { id := r.id, title := f.title, username := f.username,
    password := f.password, website := f.website, url := f.url,
    notes := f.notes, category := f.category, tags := f.tags,
    favorite := r.favorite, icon := r.icon,
    createdAt := r.createdAt, updatedAt := r.updatedAt }

/-- The sensitive-field projection taken from a cache entry before
re-encryption. -/
def sensitiveOf (e : PasswordEntry) : SensitiveFields :=
  ⟨e.title, e.username, e.password, e.website, e.url, e.notes, e.category, e.tags⟩

/-- A fresh Verifier `{payload, nonce}` encrypting the sentinel under `k`. -/
def mkVerifier (k : Key) (n : Nat) : VerifierRec :=
  ⟨⟨.str "VALID", k, n⟩, n⟩

/-- `AuthServiceImpl.getMasterKey`: throws (`none`) unless a key is live and
the session is authenticated. -/
def getMasterKey (st : St) : Option Key :=
  match st.masterKey with
  | some k => if st.isAuthenticated then some k else none
  | none => none

/-- `AuthServiceImpl.lock()`. -/
def lock (st : St) : St :=
  { st with masterKey := none, isAuthenticated := false }

/-- `AuthServiceImpl.authenticate(password)` (src/unnamed/part_001): step 1
checks the Verifier and on any failure falls through; step 2 tries to
decrypt the first stored vault record and on success heals the Verifier;
step 3 rejects when there is no oracle at all. -/
def authenticate (st : St) (password : String) : Bool × St :=
  match st.meta.salt with
  | none => (false, st)
  | some salt =>
    let derivedKey := deriveKey password salt
    let step1 : Option (Bool × St) :=
      match st.meta.verifier with
      | some v =>
        match decrypt v.payload v.nonce derivedKey with
        | some (.str "VALID") =>
          some (true, { st with masterKey := some derivedKey, isAuthenticated := true })
        | _ => none
      | none => none
    match step1 with
    | some r => r
    | none =>
      match getAllVault st with
      | [] => (false, st)
      | testItem :: _ =>
        match testItem.payload, testItem.nonce with
        | some ct, some n =>
          match decrypt ct n derivedKey with
          | some _ =>
            let vn := st.ctr
            (true, { st with
              meta := { st.meta with verifier := some (mkVerifier derivedKey vn) },
              masterKey := some derivedKey,
              isAuthenticated := true,
              ctr := st.ctr + 1 })
          | none => (false, st)
        | _, _ => (false, st)

/-- Decrypt one stored record into a cache entry, as in
`VaultService.getEntries` (missing payload/nonce, decryption failure or a
non-object plaintext drop the record). -/
def decryptRecord (k : Key) (r : StorageRecord) : Option PasswordEntry :=
  match r.payload, r.nonce with
  | some ct, some n => ((decrypt ct n k).bind parseFields).map (mkEntry r)
  | _, _ => none

/-- `VaultService.getEntries()`: short-circuits on a non-empty cache,
otherwise requires the master key (`none` models the thrown `VaultLocked`)
and lazily decrypts the whole store, dropping undecryptable records. -/
def getEntries (st : St) : Option (List PasswordEntry × St) :=
  if st.cache ≠ [] then some (st.cache, st)
  else
    match getMasterKey st with
    | none => none
    | some key =>
      let decrypted := (getAllVault st).filterMap (decryptRecord key)
      some (decrypted, { st with cache := decrypted })

/-- One write of the `reencryptVault` pass: overwrite the stored record of
cache entry `e` with its sensitive projection re-encrypted under `newKey`
and a fresh nonce (the rewritten record carries no `icon` field, as in the
source). -/
def reencStep (newKey : Key) (s : St) (e : PasswordEntry) : St :=
  let n := s.ctr
  let item : StorageRecord :=
    { id := e.id, payload := some ⟨.fields (sensitiveOf e), newKey, n⟩,
      nonce := some n, category := e.category,
      createdAt := e.createdAt, updatedAt := e.updatedAt,
      favorite := e.favorite, icon := none }
  { s with vault := upsertVault s.vault item, ctr := s.ctr + 1 }

/-- `VaultService.reencryptVault(newKey)`: re-encrypt every cached entry's
sensitive projection under `newKey` with a fresh nonce and overwrite its
stored record. -/
def reencryptVault (st : St) (newKey : Key) : Option St :=
  match getEntries st with
  | none => none
  | some (entries, st1) => some (entries.foldl (reencStep newKey) st1)

/-- The old-password check of `changeMasterPassword`: `true` when a live
key exists and the candidate key differs from it (constant-time compare in
the source). -/
def oldKeyMismatch (st : St) (currentKey : Key) : Bool :=
  match st.masterKey with
  | some mk => mk ≠ currentKey
  | none => false

/-- The commit step of `changeMasterPassword`: persist the new salt and a
fresh Verifier under the new key, and adopt the new key as live. -/
def commitRotation (st1 : St) (newSalt : Salt) (newKey : Key) : St :=
  { st1 with
    meta := { st1.meta with
      salt := some newSalt,
      verifier := some (mkVerifier newKey st1.ctr) },
    masterKey := some newKey,
    ctr := st1.ctr + 1 }

/-- `AuthServiceImpl.changeMasterPassword(old, new)` (src/unnamed/part_001):
verify `old` against the live key, then derive a new salt (the fresh value
`st.ctr`) and key, re-encrypt the vault, persist the new salt and a fresh
Verifier, and adopt the new key.  `none` models a thrown error (missing
salt, or a locked empty cache making `reencryptVault` fail). -/
def changeMasterPassword (st : St) (oldPassword newPassword : String) :
    Option (Bool × St) :=
  match st.meta.salt with
  | none => none
  | some salt =>
    if oldKeyMismatch st (deriveKey oldPassword salt) then some (false, st)
    else
      match reencryptVault { st with ctr := st.ctr + 1 }
          (deriveKey newPassword st.ctr) with
      | none => none
      | some st1 => some (true, commitRotation st1 st.ctr (deriveKey newPassword st.ctr))

/-- The `verifierJson` argument of `importCloudCredentials` as seen after
string/JSON handling: an empty-or-blank string, a string that fails
`JSON.parse`, or a parsed object with possibly missing `payload`/`nonce`
members. -/
inductive VerifierInput
  | blank
  | malformed
  | parsed (payload : Option Ciphertext) (nonce : Option Nat)
deriving DecidableEq, Repr

/-- Errors thrown by `AuthServiceImpl.importCloudCredentials`. -/
inductive ImportErr
  | missingVerifier
  | invalidVerifier
deriving DecidableEq, Repr

/-- `AuthServiceImpl.importCloudCredentials(saltB64, verifierJson)`
(src/unnamed/part_001): validate the verifier, persist the decoded salt and
the verifier, and clear the live session.  The salt argument is modelled in
its decoded form.  On a thrown error the state is returned unchanged (the
source throws before any write). -/
def importCloudCredentials (st : St) (saltBytes : Salt) (vjson : VerifierInput) :
    Except ImportErr Unit × St :=
  match vjson with
  | .blank => (.error .missingVerifier, st)
  | .malformed => (.error .invalidVerifier, st)
  | .parsed p n =>
    match p, n with
    | some ct, some nn =>
      (.ok (), { st with
        meta := { st.meta with salt := some saltBytes, verifier := some ⟨ct, nn⟩ },
        masterKey := none,
        isAuthenticated := false })
    | _, _ => (.error .invalidVerifier, st)

/-- `VaultService.importVault(encryptedJson, key)` with the input in its
parsed `{ciphertext, nonce}` form: decrypt the blob and replace the
in-memory cache with the decoded entry array (`none` models a thrown
decryption/parse error). -/
def importVault (st : St) (ct : Ciphertext) (n : Nat) (key : Key) : Option St :=
  match (decrypt ct n key).bind parseEntries with
  | none => none
  | some l => some { st with cache := l }

/-- `VaultService.exportVault(key)`: one ciphertext over the whole cached
entry array, with a fresh nonce. -/
def exportVault (st : St) (key : Key) : (Ciphertext × Nat) × St :=
  (encrypt (.entryList st.cache) key st.ctr, { st with ctr := st.ctr + 1 })

/-- The per-item decrypt-and-parse step shared by the cloud reconciliation
paths: `none` when the item lacks payload/nonce, fails to decrypt under
`k`, or its plaintext does not parse as a field object. -/
def decryptItemFields (k : Key) (item : StorageRecord) : Option SensitiveFields :=
  match item.payload, item.nonce with
  | some ct, some n => (decrypt ct n k).bind parseFields
  | _, _ => none

/-- Re-sort the cache by creation time, descending
(`entries.sort((a, b) => b.createdAt - a.createdAt)`). -/
def sortCacheDesc (st : St) : St :=
  { st with cache := st.cache.insertionSort (fun a b => b.createdAt ≤ a.createdAt) }

/-- One iteration of the `VaultService.processCloudEntries` loop: skip the
item unless it decrypts under the local key, otherwise persist the incoming
record verbatim and overwrite-or-insert its decrypted form in the cache. -/
def procStep (key : Key) (st : St) (item : StorageRecord) : St :=
  match decryptItemFields key item with
  | none => st
  | some f =>
    let entry := mkEntry item f
    let newVault := upsertVault st.vault item
    let newCache :=
      match st.cache.findIdx? (fun e => e.id == item.id) with
      | some i => st.cache.set i entry
      | none => st.cache ++ [entry]
    { st with vault := newVault, cache := newCache }

/-- `VaultService.processCloudEntries(items)`: early return on an empty
batch, read the master key once (`none` models the thrown `VaultLocked`),
process every item, then re-sort the cache by creation time descending. -/
def processCloudEntries (st : St) (items : List StorageRecord) : Option St :=
  if items = [] then some st
  else
    match getMasterKey st with
    | none => none
    | some key => some (sortCacheDesc (items.foldl (procStep key) st))

/-- The storage record written by the merge path: the decrypted fields
re-encrypted under the local key with the fresh nonce `nn`, kept under the
original id and the incoming timestamps (category falls back to the item's
when the decrypted one is the empty string, as JS `||` does). -/
def mergedRecord (localKey : Key) (nn : Nat) (item : StorageRecord)
    (f : SensitiveFields) : StorageRecord :=
  { id := item.id,
    payload := some ⟨.fields f, localKey, nn⟩,
    nonce := some nn,
    category := if f.category = "" then item.category else f.category,
    createdAt := item.createdAt, updatedAt := item.updatedAt,
    favorite := item.favorite, icon := item.icon }

/-- One iteration of the `VaultService.mergeCloudEntries` loop: decrypt
under the cloud key, skip when a cached record with the same id is at least
as new, otherwise re-encrypt under the local key with a fresh nonce,
persist under the original id and timestamps, and update the cache. -/
def mergeStep (cloudKey localKey : Key) (acc : St × Nat) (item : StorageRecord) :
    St × Nat :=
  let st := acc.1
  let cnt := acc.2
  match decryptItemFields cloudKey item with
  | none => (st, cnt)
  | some f =>
    let idx? := st.cache.findIdx? (fun e => e.id == item.id)
    let skip : Bool :=
      match idx? with
      | some i =>
        match st.cache.get? i with
        | some e => item.updatedAt ≤ e.updatedAt
        | none => false
      | none => false
    if skip then (st, cnt)
    else
      let newItem := mergedRecord localKey st.ctr item f
      let fullEntry := mkEntry newItem f
      let newCache :=
        match idx? with
        | some i => st.cache.set i fullEntry
        | none => st.cache ++ [fullEntry]
      ({ st with vault := upsertVault st.vault newItem,
                 cache := newCache, ctr := st.ctr + 1 }, cnt + 1)

/-- `VaultService.mergeCloudEntries(cloudEntries, cloudKey)`: read the local
key once, fold the per-item step over the batch, re-sort the cache, and
return the merged count. -/
def mergeCloudEntries (st : St) (items : List StorageRecord) (cloudKey : Key) :
    Option (Nat × St) :=
  match getMasterKey st with
  | none => none
  | some localKey =>
    let r := items.foldl (mergeStep cloudKey localKey) (st, 0)
    some (r.2, sortCacheDesc r.1)

/-! ### SecurityService (audit) -/

/-- Alert kinds of `SecurityService`. -/
inductive AlertType
  | compromised
  | reused
  | weak
deriving DecidableEq, Repr

/-- Alert severities of `SecurityService`. -/
inductive Severity
  | high
  | medium
  | low
deriving DecidableEq, Repr

/-- `AuditAlert` of `SecurityService`. -/
structure AuditAlert where
  type : AlertType
  entryIds : List Nat
  title : String
  description : String
  severity : Severity
deriving DecidableEq, Repr

/-- `AuditResult` of `SecurityService`. -/
structure AuditResult where
  score : Int
  weakCount : Nat
  reusedCount : Nat
  secureCount : Nat
  alerts : List AuditAlert
deriving DecidableEq, Repr

/-- The regex class `[A-Z]` applied to one character. -/
def isUpperCh (c : Char) : Bool := 'A' ≤ c && c ≤ 'Z'

/-- The regex class `[a-z]` applied to one character. -/
def isLowerCh (c : Char) : Bool := 'a' ≤ c && c ≤ 'z'

/-- The regex class `[0-9]` applied to one character. -/
def isDigitCh (c : Char) : Bool := '0' ≤ c && c ≤ '9'

/-- The regex class `[^A-Za-z0-9]` applied to one character. -/
def isSymbolCh (c : Char) : Bool := !(isUpperCh c || isLowerCh c || isDigitCh c)

/-- The 0–7 additive strength score shared by `calculateStrength` and the
specification's description of it (a character class is present when some
character of the password matches it). -/
def strengthScore (p : String) : Nat :=
  (if 8 ≤ p.length then 1 else 0) +
  (if 12 ≤ p.length then 1 else 0) +
  (if 16 ≤ p.length then 1 else 0) +
  (if p.data.any isUpperCh then 1 else 0) +
  (if p.data.any isLowerCh then 1 else 0) +
  (if p.data.any isDigitCh then 1 else 0) +
  (if p.data.any isSymbolCh then 1 else 0)

/-- `SecurityService.calculateStrength(password)`: empty passwords return
`Weak` immediately, otherwise the additive score is bucketed from the top
(`>= 6`, `>= 4`, `>= 2`). -/
def calculateStrength (password : String) : Strength :=
  if password = "" then .weak
  else if 6 ≤ strengthScore password then .secure
  else if 4 ≤ strengthScore password then .strong
  else if 2 ≤ strengthScore password then .medium
  else .weak

/-- `Map.set` as used on `passwordMap`: append the id to the group of an
existing key (keeping the key's insertion position), or append a new
key-group at the end. -/
def mapInsert : List (String × List Nat) → String → Nat → List (String × List Nat)
  | [], pw, i => [(pw, [i])]
  | g :: gs, pw, i =>
    if g.1 = pw then (g.1, g.2 ++ [i]) :: gs
    else g :: mapInsert gs pw i

/-- The password-map component of one `performAudit` loop iteration. -/
def pmStep (a : List (String × List Nat)) (e : PasswordEntry) :
    List (String × List Nat) :=
  mapInsert a e.password e.id

/-- The weak-entry component of one `performAudit` loop iteration. -/
def wkStep (a : List PasswordEntry) (e : PasswordEntry) : List PasswordEntry :=
  if calculateStrength e.password = .weak then a ++ [e] else a

/-- The secure-entry component of one `performAudit` loop iteration. -/
def secStep (a : List PasswordEntry) (e : PasswordEntry) : List PasswordEntry :=
  if calculateStrength e.password = .secure ∨ calculateStrength e.password = .strong
  then a ++ [e] else a

/-- One `performAudit` loop iteration on a non-empty password. -/
def auditCore
    (acc : List (String × List Nat) × List PasswordEntry × List PasswordEntry)
    (e : PasswordEntry) :
    List (String × List Nat) × List PasswordEntry × List PasswordEntry :=
  (pmStep acc.1 e, wkStep acc.2.1 e, secStep acc.2.2 e)

/-- One iteration of the `entries.forEach` loop in `performAudit`:
entries with an empty password are skipped; the rest are grouped by
password and classified. -/
def auditStep
    (acc : List (String × List Nat) × List PasswordEntry × List PasswordEntry)
    (e : PasswordEntry) :
    List (String × List Nat) × List PasswordEntry × List PasswordEntry :=
  if e.password = "" then acc
  else auditCore acc e

/-- The reuse alert built for one password group of size above one. -/
def mkReusedAlert (entries : List PasswordEntry) (g : String × List Nat) :
    AuditAlert :=
  let titles := String.intercalate ", "
    (((entries.filter (fun e => g.2.contains e.id)).map (fun e => e.title)).take 3)
  { type := .reused, entryIds := g.2,
    title := "Reused Password: " ++ toString g.2.length ++ " Accounts",
    description := "Used for " ++ titles ++
      (if 3 < g.2.length then " and more" else "") ++ ".",
    severity := .medium }

/-- The weak-password alert built for one weak entry. -/
def mkWeakAlert (e : PasswordEntry) : AuditAlert :=
  { type := .weak, entryIds := [e.id],
    title := "Weak Password: " ++ e.title,
    description := "This password is too short or lacks complexity.",
    severity := .high }

/-- `Math.round`: round half toward positive infinity. -/
def jsRound (q : ℚ) : ℤ := Rat.floor (q + 1 / 2)

/-- `SecurityService.performAudit(entries)`. -/
def performAudit (entries : List PasswordEntry) : AuditResult :=
  if entries = [] then ⟨100, 0, 0, 0, []⟩
  else
    let acc := entries.foldl auditStep ([], [], [])
    let pm := acc.1
    let weakEntries := acc.2.1
    let secureEntries := acc.2.2
    let reusedAlerts := pm.filterMap (fun g =>
      if 1 < g.2.length then some (mkReusedAlert entries g) else none)
    let totalReusedCount : Nat :=
      pm.foldl (fun a g => if 1 < g.2.length then a + g.2.length else a) 0
    let weakAlerts := weakEntries.map mkWeakAlert
    let alerts := weakAlerts ++ reusedAlerts
    let problemCount : ℚ := (weakEntries.length : ℚ) + (totalReusedCount : ℚ) / 2
    let score :=
      max 0 (min 100 (jsRound (100 - problemCount / (entries.length : ℚ) * 100)))
    ⟨score, weakEntries.length, totalReusedCount, secureEntries.length, alerts⟩

/-! ### Reference audit definitions, written from the specification's words
("per-record strength classification … grouping by identical secret value to
flag reuse … overall score = 100 minus a weighted penalty … floored at 0"). -/

/-- Reference strength classification: the 0–7 score bucketed as
`Weak < 2 ≤ Medium < 4 ≤ Strong < 6 ≤ Secure`. -/
def refStrength (p : String) : Strength :=
  if strengthScore p < 2 then .weak
  else if strengthScore p < 4 then .medium
  else if strengthScore p < 6 then .strong
  else .secure

/-- The ids of all records of `l` whose secret equals `s`. -/
def idsWith (s : String) (l : List PasswordEntry) : List Nat :=
  (l.filter (fun e => e.password == s)).map (fun e => e.id)

/-- Reference grouping of records by identical secret value, in order of
first occurrence; each group carries all member ids. -/
def refGroupsAll : List PasswordEntry → List (String × List Nat)
  | [] => []
  | e :: rest =>
    (e.password, e.id :: idsWith e.password rest)
      :: refGroupsAll (rest.filter (fun x => x.password != e.password))
termination_by l => l.length
decreasing_by
  simp only [List.length_cons]
  exact Nat.lt_succ_of_le (List.length_filter_le _ _)

/-- Reference reused groups: every group of more than one record sharing an
identical secret, covering all member ids. -/
def refReusedGroups (entries : List PasswordEntry) : List (List Nat) :=
  (refGroupsAll entries).filterMap
    (fun g => if 1 < g.2.length then some g.2 else none)

/-- Reference reused-entry count: total number of members of reused groups. -/
def refReusedCount (entries : List PasswordEntry) : Nat :=
  ((refReusedGroups entries).map List.length).sum

/-- Reference weak count: number of records classified `Weak`. -/
def refWeakCount (entries : List PasswordEntry) : Nat :=
  (entries.filter (fun e => decide (refStrength e.password = .weak))).length

/-- The key list of a password map. -/
def keysOf (pm : List (String × List Nat)) : List String := pm.map (fun g => g.1)

/-- Reference overall score: 100 minus (weak + reused/2) normalized by the
entry count times 100, rounded, floored at 0; empty input scores 100. -/
def refScore (entries : List PasswordEntry) : ℤ :=
  if entries = [] then 100
  else
    max 0 (jsRound (100 -
      ((refWeakCount entries : ℚ) + (refReusedCount entries : ℚ) / 2) /
        (entries.length : ℚ) * 100))

/-! ### Well-formedness and concrete states used in witnesses and
counterexamples -/

/-- Freshness of the entropy counter: every salt already present in the
state (the stored salt, and the salt underlying the key of any stored
record's payload) was generated earlier than `ctr`.  Randomly generated
salts are fresh, so reachable states satisfy this. -/
def wfB (st : St) : Bool :=
  (match st.meta.salt with
   | none => true
   | some s => s < st.ctr) &&
  st.vault.all (fun r =>
    match r.payload with
    | none => true
    | some ct => ct.key.saltId < st.ctr)

/-- A demo sensitive-field bundle. -/
def fDemo : SensitiveFields :=
  ⟨"site", "alice", "pw123", "w", "u", "n", "cat", []⟩

/-- A key not derived from the password under test. -/
def kOther : Key := ⟨"other", 0⟩

/-- The key derived from password `p` and salt `0`. -/
def kP : Key := deriveKey "p" 0

/-- A stored record encrypted under `kOther` (id 1: enumerated first). -/
def recA : StorageRecord :=
  { id := 1, payload := some ⟨.str "x", kOther, 3⟩, nonce := some 3,
    category := "", createdAt := 0, updatedAt := 0, favorite := false,
    icon := none }

/-- A stored record encrypted under `kP` (id 2: enumerated second). -/
def recB : StorageRecord :=
  { recA with id := 2, payload := some ⟨.fields fDemo, kP, 4⟩, nonce := some 4 }

/-- A state whose Verifier is stale for `kP`, whose first stored record is
under a different key and whose second stored record is under `kP`. -/
def stC1 : St :=
  { meta := { salt := some 0, setupComplete := true,
              verifier := some ⟨⟨.str "VALID", kOther, 7⟩, 7⟩ },
    vault := [recA, recB], cache := [], masterKey := none,
    isAuthenticated := false, ctr := 10 }

/-- An unlocked empty-vault state whose live key is derived from
password `pw` and salt `0`. -/
def stC2 : St :=
  { meta := { salt := some 0, setupComplete := true,
              verifier := some ⟨⟨.str "VALID", ⟨"pw", 0⟩, 1⟩, 1⟩ },
    vault := [], cache := [], masterKey := some ⟨"pw", 0⟩,
    isAuthenticated := true, ctr := 2 }

/-- The state `stC2` ends up in after rotating with old = new = `pw`. -/
def stC2' : St :=
  { meta := { salt := some 2, setupComplete := true,
              verifier := some (mkVerifier (deriveKey "pw" 2) 3) },
    vault := [], cache := [], masterKey := some (deriveKey "pw" 2),
    isAuthenticated := true, ctr := 4 }

/-- An unlocked state with local key `kP` and empty store and cache. -/
def stC7 : St :=
  { meta := { salt := some 0, setupComplete := true, verifier := none },
    vault := [], cache := [], masterKey := some kP,
    isAuthenticated := true, ctr := 10 }

/-- A cloud item whose payload decrypts under `kP` to a plaintext that is
not a JSON object (the sentinel string). -/
def itemC7 : StorageRecord :=
  { id := 5, payload := some ⟨.str "VALID", kP, 5⟩, nonce := some 5,
    category := "", createdAt := 7, updatedAt := 7, favorite := false,
    icon := none }

/-- The state written by the legacy-fallback branch of `authenticate` when
the first stored record decrypts under `k`: a healed Verifier under `k`
with a fresh nonce, the session unlocked with `k` live. -/
def healState (st : St) (k : Key) : St :=
  { st with
    meta := { st.meta with verifier := some (mkVerifier k st.ctr) },
    masterKey := some k,
    isAuthenticated := true,
    ctr := st.ctr + 1 }

/-- `stC1` with only the record under `kP` stored, so that it is the first
(and only) record the fallback tests. -/
def stW1 : St := { stC1 with vault := [recB] }

/-- A fresh, never-set-up state: no salt, no verifier, no records. -/
def stFresh : St :=
  { meta := { salt := none, setupComplete := false, verifier := none },
    vault := [], cache := [], masterKey := none, isAuthenticated := false,
    ctr := 0 }

/-- An unlocked state with a one-entry decrypted cache. -/
def stCache1 : St :=
  { meta := { salt := some 0, setupComplete := true, verifier := none },
    vault := [], cache := [⟨4, "t", "u", "pw", "w", "u", "n", "c", [], false,
      none, 0, 0⟩], masterKey := some kP, isAuthenticated := true, ctr := 0 }

/-- A cached local entry with id 5 and `updatedAt` 10. -/
def eW5 : PasswordEntry :=
  ⟨5, "loc", "u", "pw", "w", "u", "n", "c", [], false, none, 1, 10⟩

/-- An unlocked state caching `eW5`, local key `kP`. -/
def stW5 : St :=
  { meta := { salt := some 0, setupComplete := true, verifier := none },
    vault := [], cache := [eW5], masterKey := some kP,
    isAuthenticated := true, ctr := 20 }

/-- An incoming cloud item with id 5 encrypted under `kOther`, tied with
the local entry on `updatedAt`. -/
def itemW5a : StorageRecord :=
  { id := 5, payload := some ⟨.fields fDemo, kOther, 6⟩, nonce := some 6,
    category := "c", createdAt := 1, updatedAt := 10, favorite := false,
    icon := none }

/-- `itemW5a` with a strictly newer `updatedAt`. -/
def itemW5b : StorageRecord := { itemW5a with updatedAt := 11 }

/-- An incoming cloud item correctly encrypted under the local key `kP`. -/
def itemW7 : StorageRecord :=
  { id := 6, payload := some ⟨.fields fDemo, kP, 8⟩, nonce := some 8,
    category := "c", createdAt := 2, updatedAt := 2, favorite := false,
    icon := none }

/-- An incoming cloud item lacking its payload. -/
def itemW7n : StorageRecord := { itemW7 with payload := none }

/-- The state `stC7` after processing the batch `[itemW7]`. -/
def stW7' : St :=
  { stC7 with vault := [itemW7], cache := [mkEntry itemW7 fDemo] }

/-- The state `stC2` ends up in after rotating from `pw` to `new`. -/
def stW2' : St :=
  { meta := { salt := some 2, setupComplete := true,
              verifier := some (mkVerifier (deriveKey "new" 2) 3) },
    vault := [], cache := [], masterKey := some (deriveKey "new" 2),
    isAuthenticated := true, ctr := 4 }

/-- An audit entry whose secret is the empty string. -/
def cexEntry : PasswordEntry :=
  { id := 9, title := "t", username := "u", password := "", website := "",
    url := "", notes := "", category := "", tags := [], favorite := false,
    icon := none, createdAt := 0, updatedAt := 0 }

/-- First entry of the specification's audit scenario (secret `abc`). -/
def eA1 : PasswordEntry :=
  { id := 1, title := "t1", username := "u", password := "abc", website := "",
    url := "", notes := "", category := "", tags := [], favorite := false,
    icon := none, createdAt := 0, updatedAt := 0 }

/-- Second entry of the audit scenario (secret `abc` again). -/
def eA2 : PasswordEntry := { eA1 with id := 2, title := "t2" }

/-- Third entry of the audit scenario (a secure secret). -/
def eA3 : PasswordEntry := { eA1 with id := 3, title := "t3", password := "Str0ng!Pass123" }

/-! ## Theorems -/

/-- C9: `lock()` modifies only the session fields (clearing the session key
and the authenticated flag) and leaves the decrypted cache intact; for any
state with a non-empty cache, `getEntries` after `lock()` returns all
previously decrypted records, short-circuiting on the cache before ever
requesting the master key. -/
theorem lock_frame_getEntries (st : St) (h : st.cache ≠ []) :
    lock st = { st with masterKey := none, isAuthenticated := false } ∧
    (lock st).cache = st.cache ∧
    getEntries (lock st) = some (st.cache, lock st) := by
  refine ⟨rfl, rfl, ?_⟩
  simp [getEntries, lock, h]

/-- Witness for C9 at a concrete one-entry cache. -/
theorem lock_frame_getEntries_witness :
    stCache1.cache ≠ [] ∧
    getEntries (lock stCache1) = some (stCache1.cache, lock stCache1) :=
  ⟨by decide, (lock_frame_getEntries stCache1 (by decide)).2.2⟩

/-- C10: `importVault(encryptedJson, key)` replaces only the in-memory
cache with the decrypted record array; the persistent vault namespace, the
metadata and the session fields are unchanged. -/
theorem importVault_frame (st : St) (ct : Ciphertext) (n : Nat) (key : Key)
    (st' : St) (h : importVault st ct n key = some st') :
    ∃ l, (decrypt ct n key).bind parseEntries = some l ∧
      st' = { st with cache := l } ∧
      st'.vault = st.vault ∧ st'.meta = st.meta ∧
      st'.masterKey = st.masterKey ∧ st'.isAuthenticated = st.isAuthenticated := by
  unfold importVault at h
  cases hd : (decrypt ct n key).bind parseEntries with
  | none => rw [hd] at h; exact absurd h (by simp)
  | some l =>
    rw [hd] at h
    refine ⟨l, rfl, ?_, ?_, ?_, ?_, ?_⟩ <;> simp_all
    all_goals (cases h; rfl)

/-- Witness for C10 at a concrete import blob. -/
theorem importVault_frame_witness :
    importVault stC1 ⟨.entryList [cexEntry], kP, 11⟩ 11 kP =
      some { stC1 with cache := [cexEntry] } ∧
    ∃ l, (decrypt ⟨.entryList [cexEntry], kP, 11⟩ 11 kP).bind parseEntries = some l ∧
      ({ stC1 with cache := [cexEntry] } : St) = { stC1 with cache := l } := by
  refine ⟨by decide, ?_⟩
  obtain ⟨l, h1, h2, -⟩ := importVault_frame stC1 ⟨.entryList [cexEntry], kP, 11⟩ 11 kP
    { stC1 with cache := [cexEntry] } (by decide)
  exact ⟨l, h1, h2⟩

/-- C4: with no stored Verifier and an empty vault namespace, or with no
stored salt, `authenticate` returns `false` and the whole state (session
fields and metadata included) is unchanged. -/
theorem authenticate_empty_vault_reject (st : St) (p : String)
    (h : st.meta.salt = none ∨ (st.meta.verifier = none ∧ st.vault = [])) :
    authenticate st p = (false, st) := by
  unfold authenticate
  rcases h with h | ⟨hv, hvault⟩
  · simp [h]
  · cases hs : st.meta.salt with
    | none => simp
    | some salt => simp [hv, getAllVault, hvault]

/-- Witness for C4 on the fresh (no salt, no verifier, no records) state
and on a state with a salt but neither verifier nor records. -/
theorem authenticate_empty_vault_reject_witness :
    authenticate stFresh "anything" = (false, stFresh) ∧
    authenticate stC7 "anything" = (false, stC7) :=
  ⟨authenticate_empty_vault_reject _ _ (Or.inl rfl),
   authenticate_empty_vault_reject _ _ (Or.inr ⟨rfl, rfl⟩)⟩

/-- C3: when a live session key exists and the key derived from the old
password and the stored salt differs from it, `changeMasterPassword`
returns `false` with the entire state (salt, Verifier, vault records,
session key and authenticated flag) unchanged. -/
theorem changeMasterPassword_wrong_old_noop (st : St) (oldP newP : String)
    (salt : Salt) (mk : Key)
    (hs : st.meta.salt = some salt) (hk : st.masterKey = some mk)
    (hne : deriveKey oldP salt ≠ mk) :
    changeMasterPassword st oldP newP = some (false, st) := by
  unfold changeMasterPassword
  rw [hs]
  have hmm : oldKeyMismatch st (deriveKey oldP salt) = true := by
    unfold oldKeyMismatch
    rw [hk]
    simpa using fun h => hne h.symm
  simp [hmm]

/-- Witness for C3 at a concrete wrong old password. -/
theorem changeMasterPassword_wrong_old_noop_witness :
    changeMasterPassword stC2 "wrong" "next" = some (false, stC2) :=
  changeMasterPassword_wrong_old_noop stC2 "wrong" "next" 0 ⟨"pw", 0⟩
    rfl rfl (by decide)

/-- C6: `importCloudCredentials` rejects a blank verifier string with
`MissingVerifier`, an unparsable one or one lacking `payload`/`nonce` with
`InvalidVerifier`, all without persisting anything; a structurally valid
verifier is persisted together with the decoded salt and the session is
forced Locked (key and authenticated flag cleared). -/
theorem importCloudCredentials_spec (st : St) (saltBytes : Salt) :
    importCloudCredentials st saltBytes .blank = (.error .missingVerifier, st) ∧
    importCloudCredentials st saltBytes .malformed = (.error .invalidVerifier, st) ∧
    (∀ n, importCloudCredentials st saltBytes (.parsed none n) =
      (.error .invalidVerifier, st)) ∧
    (∀ p, importCloudCredentials st saltBytes (.parsed p none) =
      (.error .invalidVerifier, st)) ∧
    (∀ ct nn, importCloudCredentials st saltBytes (.parsed (some ct) (some nn)) =
      (.ok (), { st with
        meta := { st.meta with salt := some saltBytes, verifier := some ⟨ct, nn⟩ },
        masterKey := none, isAuthenticated := false })) := by
  refine ⟨rfl, rfl, ?_, ?_, fun ct nn => rfl⟩
  · intro n; cases n <;> rfl
  · intro p; cases p <;> rfl

/-- C1 counterexample: the claim as stated is false.  In `stC1` the derived
key `kP = deriveKey "p" 0` decrypts a stored vault record (`recB`), the
stored Verifier exists but fails to decrypt under `kP`, yet
`authenticate "p"` returns `false` and changes nothing, because the
fallback only tests the first record in store order (`recA`, which is
encrypted under a different key). -/
theorem authenticate_fallback_at_least_one_cex :
    stC1.meta.salt = some 0 ∧ kP = deriveKey "p" 0 ∧
    stC1.meta.verifier = some ⟨⟨.str "VALID", kOther, 7⟩, 7⟩ ∧
    decrypt ⟨.str "VALID", kOther, 7⟩ 7 kP = none ∧
    recB ∈ stC1.vault ∧ recB.payload = some ⟨.fields fDemo, kP, 4⟩ ∧
    recB.nonce = some 4 ∧ (decrypt ⟨.fields fDemo, kP, 4⟩ 4 kP).isSome = true ∧
    authenticate stC1 "p" = (false, stC1) := by
  decide

/-- C1 (amended): for every password `p` whose derived key `K` decrypts the
first stored vault record (in the store's ascending-id enumeration order),
if a stored Verifier exists but fails to decrypt under `K`, `authenticate`
does not reject on that Verifier failure: it falls through to the
vault-record check, succeeds, writes a fresh Verifier under `K`, and
unlocks the session with `K` live, so that a second `authenticate` with the
same password succeeds via the Verifier path alone (returning the state
unchanged). -/
theorem authenticate_stale_verifier_fallback (st : St) (p : String) (salt : Salt)
    (v : VerifierRec) (r : StorageRecord) (rest : List StorageRecord)
    (ct : Ciphertext) (n : Nat) (m : Plain)
    (hs : st.meta.salt = some salt)
    (hv : st.meta.verifier = some v)
    (hvfail : decrypt v.payload v.nonce (deriveKey p salt) = none)
    (hall : getAllVault st = r :: rest)
    (hp : r.payload = some ct) (hn : r.nonce = some n)
    (hdec : decrypt ct n (deriveKey p salt) = some m) :
    authenticate st p = (true, healState st (deriveKey p salt)) ∧
    (healState st (deriveKey p salt)).meta.verifier =
      some (mkVerifier (deriveKey p salt) st.ctr) ∧
    (healState st (deriveKey p salt)).masterKey = some (deriveKey p salt) ∧
    (healState st (deriveKey p salt)).isAuthenticated = true ∧
    authenticate (healState st (deriveKey p salt)) p =
      (true, healState st (deriveKey p salt)) := by
  refine ⟨?_, rfl, rfl, rfl, ?_⟩
  · unfold authenticate
    rw [hs]
    simp only [hv, hvfail, hall, hp, hn, hdec]
    rfl
  · unfold authenticate
    simp only [healState, hs]
    simp [mkVerifier, decrypt]

/-- Witness for C1 on `stW1`, whose single stored record is under `kP`. -/
theorem authenticate_stale_verifier_fallback_witness :
    authenticate stW1 "p" = (true, healState stW1 kP) ∧
    authenticate (healState stW1 kP) "p" = (true, healState stW1 kP) := by
  have h := authenticate_stale_verifier_fallback stW1 "p" 0
    ⟨⟨.str "VALID", kOther, 7⟩, 7⟩ recB [] ⟨.fields fDemo, kP, 4⟩ 4
    (.fields fDemo) (by decide) (by decide) (by decide) (by decide)
    (by decide) (by decide) (by decide)
  exact ⟨h.1, h.2.2.2.2⟩

/-- C5: in the merge loop, for an incoming item whose id matches a cached
local record: if the local `updatedAt` is at least the incoming one, the
item is skipped and nothing is persisted or cached for it (the state is
unchanged); if the local `updatedAt` is strictly smaller and the item's
fields decrypt under the cloud key, the fields are re-encrypted under the
local key and persisted and cached under the original id with the incoming
`createdAt` and `updatedAt` unchanged (`mergedRecord` keeps
`item.createdAt`/`item.updatedAt`/`item.id` by definition). -/
theorem mergeStep_last_writer_wins (cloudKey localKey : Key) (st : St)
    (cnt : Nat) (item : StorageRecord) (i : Nat) (e : PasswordEntry)
    (hidx : st.cache.findIdx? (fun x => x.id == item.id) = some i)
    (hget : st.cache.get? i = some e) :
    (item.updatedAt ≤ e.updatedAt →
      mergeStep cloudKey localKey (st, cnt) item = (st, cnt)) ∧
    (e.updatedAt < item.updatedAt →
      ∀ f, decryptItemFields cloudKey item = some f →
      mergeStep cloudKey localKey (st, cnt) item =
        ({ st with
            vault := upsertVault st.vault (mergedRecord localKey st.ctr item f),
            cache := st.cache.set i (mkEntry (mergedRecord localKey st.ctr item f) f),
            ctr := st.ctr + 1 }, cnt + 1)) := by
  constructor
  · intro hle
    unfold mergeStep
    cases hd : decryptItemFields cloudKey item with
    | none => rfl
    | some f =>
      simp only [hidx, hget, hle]
      simp
  · intro hlt f hd
    unfold mergeStep
    simp only [hd, hidx, hget]
    have : ¬ (item.updatedAt ≤ e.updatedAt) := not_le.mpr hlt
    simp [this]

/-- Witness for C5: the tied item is skipped, the newer item replaces the
local record. -/
theorem mergeStep_last_writer_wins_witness :
    mergeStep kOther kP (stW5, 0) itemW5a = (stW5, 0) ∧
    mergeStep kOther kP (stW5, 0) itemW5b =
      ({ stW5 with
          vault := upsertVault stW5.vault (mergedRecord kP stW5.ctr itemW5b fDemo),
          cache := stW5.cache.set 0 (mkEntry (mergedRecord kP stW5.ctr itemW5b fDemo) fDemo),
          ctr := stW5.ctr + 1 }, 1) := by
  refine ⟨?_, ?_⟩
  · exact (mergeStep_last_writer_wins kOther kP stW5 0 itemW5a 0 eW5
      (by decide) (by decide)).1 (by decide)
  · exact (mergeStep_last_writer_wins kOther kP stW5 0 itemW5b 0 eW5
      (by decide) (by decide)).2 (by decide) fDemo (by decide)

/-- C7 counterexample: the claim as stated is false.  `itemC7`'s payload
decrypts successfully under the local key `kP` (to the sentinel string,
which is not a JSON object), yet `processCloudEntries` neither persists nor
caches it: the state comes back unchanged with an empty vault. -/
theorem processCloudEntries_decrypt_ok_not_persisted_cex :
    decrypt ⟨.str "VALID", kP, 5⟩ 5 kP = some (.str "VALID") ∧
    itemC7.payload = some ⟨.str "VALID", kP, 5⟩ ∧ itemC7.nonce = some 5 ∧
    processCloudEntries stC7 [itemC7] = some stC7 ∧
    stC7.vault = [] ∧ stC7.cache = [] := by
  decide

/-- C7 (amended): an item that lacks payload or nonce, fails to decrypt
under the local key, or whose plaintext does not parse as a field object,
leaves the state untouched (neither persisted nor cached); an item that
decrypts and parses is persisted verbatim (the incoming record itself is
upserted) and its decrypted form overwrites-or-inserts in the cache; and
after any non-empty batch the cache is sorted by `createdAt` descending. -/
theorem processCloudEntries_spec :
    (∀ k st item, decryptItemFields k item = none → procStep k st item = st) ∧
    (∀ k st item f, decryptItemFields k item = some f →
      procStep k st item =
        { st with
          vault := upsertVault st.vault item,
          cache := match st.cache.findIdx? (fun e => e.id == item.id) with
            | some i => st.cache.set i (mkEntry item f)
            | none => st.cache ++ [mkEntry item f] }) ∧
    (∀ st items st', items ≠ [] → processCloudEntries st items = some st' →
      List.Sorted (fun a b => b.createdAt ≤ a.createdAt) st'.cache) := by
  refine ⟨?_, ?_, ?_⟩
  · intro k st item hd
    unfold procStep
    rw [hd]
  · intro k st item f hd
    unfold procStep
    rw [hd]
  · intro st items st' hne hp
    unfold processCloudEntries at hp
    rw [if_neg hne] at hp
    cases hk : getMasterKey st with
    | none => rw [hk] at hp; exact absurd hp (by simp)
    | some key =>
      rw [hk] at hp
      have hst' : st' = sortCacheDesc (items.foldl (procStep key) st) := by
        injection hp with h; exact h.symm
      subst hst'
      haveI h1 : IsTotal PasswordEntry (fun a b => b.createdAt ≤ a.createdAt) :=
        ⟨fun a b => le_total b.createdAt a.createdAt⟩
      haveI h2 : IsTrans PasswordEntry (fun a b => b.createdAt ≤ a.createdAt) :=
        ⟨fun a b c hab hbc => le_trans hbc hab⟩
      exact List.sorted_insertionSort _ _

/-- Witness for C7: a payload-less item is skipped, a decryptable item is
persisted verbatim and cached, and the cache after the batch is sorted. -/
theorem processCloudEntries_spec_witness :
    procStep kP stC7 itemW7n = stC7 ∧
    procStep kP stC7 itemW7 =
      { stC7 with
        vault := upsertVault stC7.vault itemW7,
        cache := stC7.cache ++ [mkEntry itemW7 fDemo] } ∧
    List.Sorted (fun a b => b.createdAt ≤ a.createdAt) stW7'.cache := by
  refine ⟨processCloudEntries_spec.1 kP stC7 itemW7n (by decide), ?_, ?_⟩
  · have h := processCloudEntries_spec.2.1 kP stC7 itemW7 fDemo (by decide)
    rw [h]
    decide
  · exact processCloudEntries_spec.2.2 stC7 [itemW7] stW7' (by decide) (by decide)

/-- Membership in an upserted vault list: the record is the upserted item
or was already stored. -/
theorem mem_upsertVault (v : List StorageRecord) (item r : StorageRecord)
    (h : r ∈ upsertVault v item) : r = item ∨ r ∈ v := by
  induction v with
  | nil => simpa [upsertVault] using h
  | cons x xs ih =>
    unfold upsertVault at h
    by_cases hx : x.id = item.id
    · rw [if_pos hx] at h
      rcases List.mem_cons.mp h with h1 | h1
      · exact Or.inl h1
      · exact Or.inr (List.mem_cons_of_mem _ h1)
    · rw [if_neg hx] at h
      rcases List.mem_cons.mp h with h1 | h1
      · exact Or.inr (h1 ▸ List.mem_cons_self _ _)
      · rcases ih h1 with h2 | h2
        · exact Or.inl h2
        · exact Or.inr (List.mem_cons_of_mem _ h2)

/-- After the re-encryption fold, every stored payload is either under the
new key or under a key whose salt is older than `c`. -/
theorem reencFold_vault_key (k : Key) (c : Nat) :
    ∀ (entries : List PasswordEntry) (s : St),
    (∀ r ∈ s.vault, ∀ ct, r.payload = some ct → ct.key = k ∨ ct.key.saltId < c) →
    ∀ r ∈ (entries.foldl (reencStep k) s).vault, ∀ ct, r.payload = some ct →
      ct.key = k ∨ ct.key.saltId < c := by
  intro entries
  induction entries with
  | nil => intro s hs; simpa using hs
  | cons e es ih =>
    intro s hs
    rw [List.foldl_cons]
    apply ih
    intro r hr ct hct
    rcases mem_upsertVault _ _ _ hr with heq | hmem
    · subst heq
      simp only [reencStep] at hct
      cases hct
      exact Or.inl rfl
    · exact hs r hmem ct hct

/-- The re-encryption fold never touches the metadata namespace. -/
theorem reencFold_meta (k : Key) :
    ∀ (entries : List PasswordEntry) (s : St),
    (entries.foldl (reencStep k) s).meta = s.meta := by
  intro entries
  induction entries with
  | nil => intro s; rfl
  | cons e es ih => intro s; rw [List.foldl_cons, ih]; rfl

/-- `getEntries` only ever touches the cache field. -/
theorem getEntries_frame (st : St) (l : List PasswordEntry) (st1 : St)
    (h : getEntries st = some (l, st1)) :
    st1.vault = st.vault ∧ st1.meta = st.meta := by
  unfold getEntries at h
  split at h
  · injection h with h
    injection h with h1 h2
    rw [← h2]
    exact ⟨rfl, rfl⟩
  · split at h
    · simp at h
    · injection h with h
      injection h with h1 h2
      rw [← h2]
      exact ⟨rfl, rfl⟩

/-- A successful `reencryptVault` keeps the metadata and leaves every
stored payload either under the new key or under a strictly older salt. -/
theorem reencryptVault_props (st0 : St) (k : Key) (st1 : St) (c : Nat)
    (hre : reencryptVault st0 k = some st1)
    (hbase : ∀ r ∈ st0.vault, ∀ ct, r.payload = some ct → ct.key.saltId < c) :
    st1.meta = st0.meta ∧
    (∀ r ∈ st1.vault, ∀ ct, r.payload = some ct → ct.key = k ∨ ct.key.saltId < c) := by
  unfold reencryptVault at hre
  cases hge : getEntries st0 with
  | none => rw [hge] at hre; simp at hre
  | some pr =>
    rw [hge] at hre
    injection hre with hre
    obtain ⟨hv, hm⟩ := getEntries_frame st0 pr.1 pr.2 (by rw [hge])
    constructor
    · rw [← hre, reencFold_meta, hm]
    · rw [← hre]
      apply reencFold_vault_key
      intro r hr ct hct
      rw [hv] at hr
      exact Or.inr (hbase r hr ct hct)

/-- C2 counterexample: the claim as stated quantifies over all password
pairs, including `old = new`.  Rotating `stC2` from `pw` to `pw` succeeds,
and afterwards `authenticate` with the old password still succeeds (the
old password derives the new key under the new salt), contradicting the
claimed `authenticate(old)` failure. -/
theorem changeMasterPassword_same_password_cex :
    changeMasterPassword stC2 "pw" "pw" = some (true, stC2') ∧
    (authenticate stC2' "pw").1 = true := by
  decide

/-- C2 (amended, for `old ≠ new` and a state whose stored salts predate the
entropy counter): a successful `changeMasterPassword(old, new)` leaves a
fresh salt (different from the previous one) persisted, a Verifier
encrypted under the key derived from the new password and that salt, and
that key live; afterwards `authenticate(new)` succeeds and
`authenticate(old)` fails. -/
theorem changeMasterPassword_rotation (st : St) (oldP newP : String) (st' : St)
    (hwf : wfB st = true) (hne : oldP ≠ newP)
    (h : changeMasterPassword st oldP newP = some (true, st')) :
    st'.meta.salt = some st.ctr ∧
    st'.meta.verifier = some (mkVerifier (deriveKey newP st.ctr) (st'.ctr - 1)) ∧
    st'.masterKey = some (deriveKey newP st.ctr) ∧
    (∀ s0, st.meta.salt = some s0 → st.ctr ≠ s0) ∧
    (authenticate st' newP).1 = true ∧
    (authenticate st' oldP).1 = false := by
  have hwf1 : ∀ s0, st.meta.salt = some s0 → s0 < st.ctr := by
    intro s0 hs0
    have h1 := ((Bool.and_eq_true _ _).mp hwf).1
    rw [hs0] at h1
    simpa using h1
  have hwf2 : ∀ r ∈ st.vault, ∀ ct, r.payload = some ct → ct.key.saltId < st.ctr := by
    intro r hr ct hct
    have h2 := ((Bool.and_eq_true _ _).mp hwf).2
    rw [List.all_eq_true] at h2
    have h3 := h2 r hr
    rw [hct] at h3
    simpa using h3
  unfold changeMasterPassword at h
  split at h
  · simp at h
  rename_i s0 hsalt
  by_cases hmm : oldKeyMismatch st (deriveKey oldP s0) = true
  · rw [if_pos hmm] at h
    simp at h
  · rw [if_neg hmm] at h
    cases hre : reencryptVault { st with ctr := st.ctr + 1 } (deriveKey newP st.ctr) with
    | none => rw [hre] at h; simp at h
    | some st1 =>
      rw [hre] at h
      injection h with h
      injection h with hb hst'
      obtain ⟨hmeta1, hkeys1⟩ := reencryptVault_props _ _ _ st.ctr hre
        (by intro r hr ct hct; exact hwf2 r hr ct hct)
      have hsalt' : st'.meta.salt = some st.ctr := by rw [← hst']; rfl
      have hver' : st'.meta.verifier =
          some (mkVerifier (deriveKey newP st.ctr) st1.ctr) := by
        rw [← hst']; rfl
      have hmk' : st'.masterKey = some (deriveKey newP st.ctr) := by rw [← hst']; rfl
      have hctr' : st'.ctr = st1.ctr + 1 := by rw [← hst']; rfl
      have hvault' : st'.vault = st1.vault := by rw [← hst']; rfl
      have hkeyne : deriveKey newP st.ctr ≠ deriveKey oldP st.ctr := by
        intro hq
        injection hq with hq1 hq2
        exact hne hq1.symm
      refine ⟨hsalt', ?_, hmk', ?_, ?_, ?_⟩
      · rw [hver', hctr']
        simp
      · intro s1 hs1
        rw [hsalt] at hs1
        injection hs1 with hs1
        subst hs1
        intro hq
        exact absurd (hwf1 _ hsalt) (by rw [hq]; exact lt_irrefl _)
      · unfold authenticate
        rw [hsalt']
        simp only [hver', mkVerifier, decrypt]
        simp
      · unfold authenticate
        rw [hsalt']
        simp only [hver']
        have hvd : decrypt (mkVerifier (deriveKey newP st.ctr) st1.ctr).payload
            (mkVerifier (deriveKey newP st.ctr) st1.ctr).nonce
            (deriveKey oldP st.ctr) = none := by
          unfold mkVerifier decrypt
          rw [if_neg]
          rintro ⟨hq, -⟩
          exact hkeyne hq
        simp only [hvd]
        have hnodec : ∀ t ∈ getAllVault st', ∀ ct n, t.payload = some ct →
            decrypt ct n (deriveKey oldP st.ctr) = none := by
          intro t ht ct n hct
          have htv : t ∈ st'.vault :=
            (List.Perm.mem_iff (List.perm_insertionSort _ _)).mp ht
          rw [hvault'] at htv
          rcases hkeys1 t htv ct hct with hk1 | hk1
          · unfold decrypt
            rw [if_neg]
            rintro ⟨hq, -⟩
            exact hkeyne (hk1 ▸ hq)
          · unfold decrypt
            rw [if_neg]
            rintro ⟨hq, -⟩
            rw [hq] at hk1
            exact absurd hk1 (by simp [deriveKey])
        cases hga : getAllVault st' with
        | nil => simp
        | cons t rest =>
          cases hpl : t.payload with
          | none => simp [hpl]
          | some ct =>
            cases hnn : t.nonce with
            | none => simp [hpl, hnn]
            | some n =>
              have := hnodec t (hga ▸ List.mem_cons_self _ _) ct n hpl
              simp [hpl, hnn, this]

/-- Witness for C2: rotating `stC2` from `pw` to `new`. -/
theorem changeMasterPassword_rotation_witness :
    wfB stC2 = true ∧
    changeMasterPassword stC2 "pw" "new" = some (true, stW2') ∧
    (authenticate stW2' "new").1 = true ∧
    (authenticate stW2' "pw").1 = false := by
  refine ⟨by decide, by decide, ?_, ?_⟩
  · exact (changeMasterPassword_rotation stC2 "pw" "new" stW2'
      (by decide) (by decide) (by decide)).2.2.2.2.1
  · exact (changeMasterPassword_rotation stC2 "pw" "new" stW2'
      (by decide) (by decide) (by decide)).2.2.2.2.2

/-! ### Audit refinement lemmas -/

/-- `List.contains` agrees with decidable membership on strings. -/
theorem contains_eq_decide_mem (l : List String) (s : String) :
    l.contains s = decide (s ∈ l) := by
  induction l with
  | nil => rfl
  | cons a as ih =>
    by_cases h : s = a <;> simp [List.contains_cons, ih, h]

/-- `keysOf` on a cons. -/
theorem keysOf_cons (g : String × List Nat) (gs : List (String × List Nat)) :
    keysOf (g :: gs) = g.1 :: keysOf gs := rfl

/-- `mapInsert` on a present key appends the id to that key's group. -/
theorem mapInsert_of_mem (pm : List (String × List Nat)) (pw : String) (i : Nat)
    (hnd : (keysOf pm).Nodup) (hmem : pw ∈ keysOf pm) :
    mapInsert pm pw i =
      pm.map (fun g => if g.1 = pw then (g.1, g.2 ++ [i]) else g) := by
  induction pm with
  | nil => simp [keysOf] at hmem
  | cons g gs ih =>
    rw [keysOf_cons, List.nodup_cons] at hnd
    rw [keysOf_cons] at hmem
    by_cases hg : g.1 = pw
    · unfold mapInsert
      rw [if_pos hg, List.map_cons, if_pos hg]
      have h1 : ∀ x ∈ gs, (if x.1 = pw then (x.1, x.2 ++ [i]) else x) = x := by
        intro x hx
        rw [if_neg]
        intro hxe
        apply hnd.1
        rw [hg, ← hxe]
        exact List.mem_map_of_mem _ hx
      rw [List.map_congr_left h1]
      simp
    · unfold mapInsert
      rw [if_neg hg, List.map_cons, if_neg hg]
      have hmem' : pw ∈ keysOf gs := by
        rcases List.mem_cons.mp hmem with h | h
        · exact absurd h.symm hg
        · exact h
      rw [ih hnd.2 hmem']

/-- `mapInsert` on an absent key appends a fresh singleton group. -/
theorem mapInsert_of_not_mem (pm : List (String × List Nat)) (pw : String) (i : Nat)
    (hmem : pw ∉ keysOf pm) :
    mapInsert pm pw i = pm ++ [(pw, [i])] := by
  induction pm with
  | nil => rfl
  | cons g gs ih =>
    rw [keysOf_cons] at hmem
    have hg : g.1 ≠ pw := fun h => hmem (h ▸ List.mem_cons_self _ _)
    unfold mapInsert
    rw [if_neg hg, ih (fun h => hmem (List.mem_cons_of_mem _ h))]
    rfl

/-- Appending an id to one group does not change the key list. -/
theorem keysOf_map_upd (pm : List (String × List Nat)) (pw : String) (i : Nat) :
    keysOf (pm.map (fun g => if g.1 = pw then (g.1, g.2 ++ [i]) else g)) =
      keysOf pm := by
  unfold keysOf
  rw [List.map_map]
  apply List.map_congr_left
  intro g hg
  by_cases h : g.1 = pw <;> simp [h]

/-- `keysOf` distributes over append. -/
theorem keysOf_append (pm qm : List (String × List Nat)) :
    keysOf (pm ++ qm) = keysOf pm ++ keysOf qm := by
  unfold keysOf; rw [List.map_append]

/-- `idsWith` on a cons whose head has the secret in question. -/
theorem idsWith_cons_eq (e : PasswordEntry) (rest : List PasswordEntry)
    (s : String) (h : e.password = s) :
    idsWith s (e :: rest) = e.id :: idsWith s rest := by
  unfold idsWith
  rw [List.filter_cons, if_pos (by simp [h])]
  rfl

/-- `idsWith` on a cons whose head has a different secret. -/
theorem idsWith_cons_ne (e : PasswordEntry) (rest : List PasswordEntry)
    (s : String) (h : e.password ≠ s) :
    idsWith s (e :: rest) = idsWith s rest := by
  unfold idsWith
  rw [List.filter_cons, if_neg (by simp [h])]

/-- Correctness of the password-map fold: starting from a map with distinct
keys, the final map extends each existing group with the matching ids of
the batch and appends the reference grouping of the unseen secrets. -/
theorem pmFold_char : ∀ (l : List PasswordEntry) (pm : List (String × List Nat)),
    (keysOf pm).Nodup →
    l.foldl pmStep pm =
      pm.map (fun g => (g.1, g.2 ++ idsWith g.1 l)) ++
      refGroupsAll (l.filter (fun x => !((keysOf pm).contains x.password))) := by
  intro l
  induction l with
  | nil =>
    intro pm hnd
    simp [idsWith, refGroupsAll]
  | cons e rest ih =>
    intro pm hnd
    rw [List.foldl_cons]
    by_cases hmem : e.password ∈ keysOf pm
    · rw [show pmStep pm e = mapInsert pm e.password e.id from rfl,
        mapInsert_of_mem pm _ _ hnd hmem,
        ih _ (by rw [keysOf_map_upd]; exact hnd), keysOf_map_upd]
      have hA : (pm.map (fun g => if g.1 = e.password then (g.1, g.2 ++ [e.id]) else g)).map
            (fun g => (g.1, g.2 ++ idsWith g.1 rest)) =
          pm.map (fun g => (g.1, g.2 ++ idsWith g.1 (e :: rest))) := by
        rw [List.map_map]
        apply List.map_congr_left
        intro g hg
        by_cases hgp : g.1 = e.password
        · simp only [Function.comp_apply, if_pos hgp]
          rw [idsWith_cons_eq e rest g.1 hgp.symm]
          simp
        · simp only [Function.comp_apply, if_neg hgp]
          rw [idsWith_cons_ne e rest g.1 (fun h => hgp h.symm)]
      have hB : (e :: rest).filter (fun x => !((keysOf pm).contains x.password)) =
          rest.filter (fun x => !((keysOf pm).contains x.password)) := by
        rw [List.filter_cons, if_neg (by simp [contains_eq_decide_mem, hmem])]
      rw [hA, hB]
    · rw [show pmStep pm e = mapInsert pm e.password e.id from rfl,
        mapInsert_of_not_mem pm _ _ hmem]
      have hnd' : (keysOf (pm ++ [(e.password, [e.id])])).Nodup := by
        rw [keysOf_append, List.nodup_append]
        refine ⟨hnd, List.nodup_singleton _, ?_⟩
        intro a ha hb
        rw [show keysOf [(e.password, [e.id])] = [e.password] from rfl] at hb
        rw [List.mem_singleton] at hb
        subst hb
        exact hmem ha
      rw [ih _ hnd']
      rw [keysOf_append, show keysOf [(e.password, [e.id])] = [e.password] from rfl]
      have hB : (e :: rest).filter (fun x => !((keysOf pm).contains x.password)) =
          e :: rest.filter (fun x => !((keysOf pm).contains x.password)) := by
        rw [List.filter_cons, if_pos (by simp [contains_eq_decide_mem, hmem])]
      rw [hB]
      rw [show refGroupsAll (e :: rest.filter (fun x => !((keysOf pm).contains x.password))) =
          (e.password, e.id :: idsWith e.password
            (rest.filter (fun x => !((keysOf pm).contains x.password)))) ::
          refGroupsAll ((rest.filter (fun x => !((keysOf pm).contains x.password))).filter
            (fun x => x.password != e.password)) from by rw [refGroupsAll]]
      have hA : pm.map (fun g => (g.1, g.2 ++ idsWith g.1 (e :: rest))) =
          pm.map (fun g => (g.1, g.2 ++ idsWith g.1 rest)) := by
        apply List.map_congr_left
        intro g hg
        have hne' : e.password ≠ g.1 := by
          intro h
          exact hmem (h ▸ List.mem_map_of_mem _ hg)
        rw [idsWith_cons_ne e rest g.1 hne']
      have hIds : idsWith e.password
          (rest.filter (fun x => !((keysOf pm).contains x.password))) =
          idsWith e.password rest := by
        unfold idsWith
        rw [List.filter_filter]
        congr 1
        apply List.filter_congr
        intro a ha
        by_cases h1 : a.password = e.password
        · simp [h1, contains_eq_decide_mem, hmem]
        · simp [h1]
      have hTail : (rest.filter (fun x => !((keysOf pm).contains x.password))).filter
            (fun x => x.password != e.password) =
          rest.filter (fun x => !((keysOf pm ++ [e.password]).contains x.password)) := by
        rw [List.filter_filter]
        apply List.filter_congr
        intro a ha
        by_cases h1 : a.password = e.password
        · simp [h1, contains_eq_decide_mem]
        · by_cases h2 : a.password ∈ keysOf pm
          · simp [h1, h2, contains_eq_decide_mem, List.mem_append]
          · simp [h1, h2, contains_eq_decide_mem, List.mem_append]
      rw [hA, hIds, hTail, List.map_append]
      simp

/-- The audit loop skips exactly the empty-password entries. -/
theorem foldl_auditStep_filter : ∀ (l : List PasswordEntry)
    (acc : List (String × List Nat) × List PasswordEntry × List PasswordEntry),
    l.foldl auditStep acc = (l.filter (fun e => e.password != "")).foldl auditCore acc := by
  intro l
  induction l with
  | nil => intro acc; rfl
  | cons e rest ih =>
    intro acc
    rw [List.foldl_cons, List.filter_cons]
    by_cases h : e.password = ""
    · rw [if_neg (by simp [h]), show auditStep acc e = acc from by simp [auditStep, h]]
      exact ih acc
    · rw [if_pos (by simp [h]), List.foldl_cons,
        show auditStep acc e = auditCore acc e from by simp [auditStep, h]]
      exact ih _

/-- The audit fold acts componentwise on its accumulator triple. -/
theorem foldl_auditCore_split : ∀ (l : List PasswordEntry)
    (pm : List (String × List Nat)) (wk sec : List PasswordEntry),
    l.foldl auditCore (pm, wk, sec) =
      (l.foldl pmStep pm, l.foldl wkStep wk, l.foldl secStep sec) := by
  intro l
  induction l with
  | nil => intro pm wk sec; rfl
  | cons e rest ih =>
    intro pm wk sec
    rw [List.foldl_cons, List.foldl_cons, List.foldl_cons, List.foldl_cons]
    exact ih _ _ _

/-- The weak-entry fold collects exactly the weakly classified entries. -/
theorem foldl_wkStep : ∀ (l : List PasswordEntry) (a : List PasswordEntry),
    l.foldl wkStep a =
      a ++ l.filter (fun e => decide (calculateStrength e.password = .weak)) := by
  intro l
  induction l with
  | nil => intro a; simp
  | cons e rest ih =>
    intro a
    rw [List.foldl_cons, List.filter_cons]
    by_cases h : calculateStrength e.password = .weak
    · rw [if_pos (by simp [h]), show wkStep a e = a ++ [e] from by simp [wkStep, h], ih]
      simp
    · rw [if_neg (by simp [h]), show wkStep a e = a from by simp [wkStep, h], ih]

/-- The conditional-sum fold over groups equals the total size of the
groups of more than one member. -/
theorem foldl_reused_sum : ∀ (gs : List (String × List Nat)) (a : Nat),
    gs.foldl (fun a g => if 1 < g.2.length then a + g.2.length else a) a =
      a + ((gs.filterMap (fun g => if 1 < g.2.length then some g.2 else none)).map
        List.length).sum := by
  intro gs
  induction gs with
  | nil => intro a; simp
  | cons g rest ih =>
    intro a
    rw [List.foldl_cons, List.filterMap_cons]
    by_cases h : 1 < g.2.length
    · rw [if_pos h, if_pos h, ih]
      simp [Nat.add_assoc]
    · rw [if_neg h, if_neg h, ih]

/-- The source's top-down strength bucketing agrees with the
specification's bottom-up one. -/
theorem calculateStrength_eq_refStrength : ∀ p, calculateStrength p = refStrength p := by
  intro p
  by_cases hp : p = ""
  · subst hp; decide
  · unfold calculateStrength refStrength
    rw [if_neg hp]
    generalize strengthScore p = n
    split_ifs <;> first | rfl | omega

/-- `Rat.floor` is the floor of the `FloorRing` instance of `ℚ`. -/
theorem ratFloor_eq_intFloor (q : ℚ) : Rat.floor q = ⌊q⌋ := rfl

/-- Rounding `100 - q` for nonnegative `q` never exceeds 100 (so the
source's `Math.min(100, ·)` cap is inert). -/
theorem jsRound_le_100 (q : ℚ) (h : 0 ≤ q) : jsRound (100 - q) ≤ 100 := by
  unfold jsRound
  rw [ratFloor_eq_intFloor]
  have h1 : (100 : ℚ) - q + 1 / 2 ≤ 201 / 2 := by linarith
  calc ⌊(100 : ℚ) - q + 1 / 2⌋ ≤ ⌊(201 / 2 : ℚ)⌋ := Int.floor_le_floor h1
    _ = 100 := by
      rw [Int.floor_eq_iff]
      constructor <;> norm_num

/-- C8 counterexample: the claim as stated is false.  The reference
definition classifies the empty secret as Weak and counts it, but
`performAudit` skips empty-password entries entirely: on one empty-secret
entry the code reports no weak entries and no alerts while the reference
counts one weak entry. -/
theorem performAudit_empty_secret_cex :
    cexEntry.password = "" ∧
    (performAudit [cexEntry]).weakCount = 0 ∧
    (performAudit [cexEntry]).alerts = [] ∧
    refWeakCount [cexEntry] = 1 ∧
    (performAudit [cexEntry]).weakCount ≠ refWeakCount [cexEntry] := by
  decide

/-- C8 (amended, for batches whose secrets are all non-empty — the code
skips empty-secret records entirely): `performAudit` computes the reference
audit: per-record strength classification by the 0–7 score bucketed
`Weak < 2 ≤ Medium < 4 ≤ Strong < 6 ≤ Secure`; one reuse alert per group of
more than one record sharing an identical secret, covering all member ids;
the overall score 100 minus (weak + reused/2) over the entry count times
100, rounded, floored at 0; and empty input yields score 100 with no
alerts. -/
theorem performAudit_matches_reference :
    (∀ p, calculateStrength p = refStrength p) ∧
    (∀ entries, entries ≠ [] → (∀ e ∈ entries, e.password ≠ "") →
      (performAudit entries).weakCount = refWeakCount entries ∧
      (performAudit entries).reusedCount = refReusedCount entries ∧
      ((performAudit entries).alerts.filter
          (fun a => decide (a.type = .reused))).map (fun a => a.entryIds) =
        refReusedGroups entries ∧
      (performAudit entries).score = refScore entries) ∧
    performAudit [] = ⟨100, 0, 0, 0, []⟩ := by
  refine ⟨calculateStrength_eq_refStrength, ?_, rfl⟩
  intro entries hne hp
  have hfilter : entries.filter (fun e => e.password != "") = entries :=
    List.filter_eq_self.mpr (fun e he => by simpa using hp e he)
  have hpm : entries.foldl pmStep [] = refGroupsAll entries := by
    rw [pmFold_char entries [] (by simp [keysOf])]
    simp [keysOf]
  have hwk : entries.foldl wkStep [] =
      entries.filter (fun e => decide (calculateStrength e.password = .weak)) := by
    rw [foldl_wkStep]
    simp
  have hacc : entries.foldl auditStep ([], [], []) =
      (refGroupsAll entries,
       entries.filter (fun e => decide (calculateStrength e.password = .weak)),
       entries.foldl secStep []) := by
    rw [foldl_auditStep_filter, hfilter, foldl_auditCore_split, hpm, hwk]
  have hwlen : (entries.filter
        (fun e => decide (calculateStrength e.password = .weak))).length =
      refWeakCount entries := by
    unfold refWeakCount
    congr 1
    apply List.filter_congr
    intro e he
    rw [calculateStrength_eq_refStrength]
  refine ⟨?_, ?_, ?_, ?_⟩
  · simp only [performAudit, if_neg hne, hacc]
    exact hwlen
  · simp only [performAudit, if_neg hne, hacc]
    rw [foldl_reused_sum]
    simp [refReusedCount, refReusedGroups]
  · simp only [performAudit, if_neg hne, hacc]
    rw [List.filter_append]
    have h1 : List.filter (fun a => decide (a.type = AlertType.reused))
        ((entries.filter
          (fun e => decide (calculateStrength e.password = .weak))).map mkWeakAlert) = [] := by
      rw [List.filter_eq_nil_iff]
      intro a ha
      rcases List.mem_map.mp ha with ⟨e, he, hae⟩
      subst hae
      simp [mkWeakAlert]
    have h2 : List.filter (fun a => decide (a.type = AlertType.reused))
        ((refGroupsAll entries).filterMap
          (fun g => if 1 < g.2.length then some (mkReusedAlert entries g) else none)) =
        (refGroupsAll entries).filterMap
          (fun g => if 1 < g.2.length then some (mkReusedAlert entries g) else none) := by
      rw [List.filter_eq_self]
      intro a ha
      rcases List.mem_filterMap.mp ha with ⟨g, hg, hga⟩
      by_cases hc : 1 < g.2.length
      · rw [if_pos hc] at hga
        injection hga with hga
        subst hga
        simp [mkReusedAlert]
      · rw [if_neg hc] at hga
        exact absurd hga (by simp)
    rw [h1, h2, List.nil_append, List.map_filterMap]
    unfold refReusedGroups
    apply List.filterMap_congr
    intro g hg
    by_cases hc : 1 < g.2.length
    · rw [if_pos hc, if_pos hc]
      rfl
    · rw [if_neg hc, if_neg hc]
      rfl
  · simp only [performAudit, if_neg hne, hacc]
    rw [foldl_reused_sum, hwlen]
    unfold refScore
    rw [if_neg hne]
    have hsum : (0 : Nat) + ((((refGroupsAll entries).filterMap
          (fun g => if 1 < g.2.length then some g.2 else none)).map List.length).sum) =
        refReusedCount entries := by
      simp [refReusedCount, refReusedGroups]
    rw [hsum]
    have hq : (0 : ℚ) ≤ ((refWeakCount entries : ℚ) + (refReusedCount entries : ℚ) / 2) /
        (entries.length : ℚ) * 100 := by positivity
    rw [min_eq_right (jsRound_le_100 _ hq)]

/-- Witness for C8 on the specification's audit scenario
(`abc`, `abc`, `Str0ng!Pass123`). -/
theorem performAudit_matches_reference_witness :
    (performAudit [eA1, eA2, eA3]).weakCount = refWeakCount [eA1, eA2, eA3] ∧
    (performAudit [eA1, eA2, eA3]).reusedCount = refReusedCount [eA1, eA2, eA3] ∧
    ((performAudit [eA1, eA2, eA3]).alerts.filter
        (fun a => decide (a.type = .reused))).map (fun a => a.entryIds) =
      refReusedGroups [eA1, eA2, eA3] ∧
    (performAudit [eA1, eA2, eA3]).score = refScore [eA1, eA2, eA3] :=
  performAudit_matches_reference.2.1 [eA1, eA2, eA3] (by decide) (by decide)

end EV
